import Mathlib

/-!
Verification development for the RSS-to-Telegram-Bot repository.

Shallow embedding of the feed scheduling/fetch pipeline (src/src/feed.py),
the network layer classification (src/src/web.py) and the HTML content
parser (src/src/parsing/html_parser.py), together with theorems settling
the specification claims about them.
-/

set_option maxHeartbeats 1000000

/-- An entry as produced by the external feed-format parser
(feedparser): only the fields the core inspects are modelled.
Mirrors the dict access pattern in src/src/feed.py:37,55:
the diff key is the guid if present, else the link. -/
structure Entry where
  guid : Option String
  link : String
  deriving DecidableEq, Repr

/-- Result of feedparser.parse as consumed by the core:
a list of entries and the feed-level title metadata.
(src/src/feed.py uses rss_d.entries; src/src/web.py additionally
tests whether a title key exists in rss_d.feed.) -/
structure RssD where
  entries : List Entry
  feedTitle : Option String
  deriving DecidableEq, Repr

/-- The Feed object of src/src/feed.py:19-30. -/
structure Feed where
  fid : Option Nat
  name : Option String
  link : String
  last : Option String
  deriving DecidableEq, Repr

/-- Diff key of an entry: entry guid if present, else entry link
(src/src/feed.py:37,55). -/
def diff_key (e : Entry) : String :=
  match e.guid with
  | some g => g
  | none => e.link

/-- Observable events emitted while a Feed/Feeds operation runs, in
program order: in-memory marker update (src/src/feed.py:43), durable
database writes (src/src/feed.py:44, 178) and deletes
(src/src/feed.py:191), and dispatch of an entry into the send pipeline
(src/src/feed.py:81-83, in submission order). -/
inductive Event where
  | setLast (value : String)
  | dbWrite (name : Option String) (link : String) (last : String) (update : Bool)
  | dbDelete (name : String)
  | dispatch (e : Entry)
  deriving DecidableEq, Repr

/-- Return value of Feed.monitor_async: False on fetch failure,
None when not updated, True when updated (src/src/feed.py:32-65). -/
inductive MonitorResult where
  | fetchFailed
  | noUpdate
  | updated
  deriving DecidableEq, Repr

/-- Feed.send, src/src/feed.py:67-83, restricted to computing which
entries are submitted to the dispatch pipeline and in which order.
Mirrors the slice-bound adjustments of lines 71-75 and the Python
slice entries[start:stop] followed by optional reversal. -/
def send_entries (entries : List Entry) (start : Nat) (stop : Option Nat)
    (reverse : Bool) : List Entry :=
  let se : Nat × Option Nat :=
    if start ≥ entries.length then (0, some 1)
    else match stop with
      | some e => if start > 0 ∧ e ≤ start then (start, some (start + 1)) else (start, some e)
      | none => (start, none)
  let sliced := match se.2 with
    | some e => (entries.take e).drop se.1
    | none => entries.drop se.1
  if reverse then sliced.reverse else sliced

/-- Feed.monitor_async, src/src/feed.py:32-65, as a function from the
feed state and the fetch outcome (None models a failed
feed_get_async) to the new feed state, the emitted event trace and the
returned status.  The `[]` entries case cannot arise: feed_get_async
(src/src/feed.py:263-281) returns None whenever rss_d.entries is
empty, so a successful fetch always carries a non-empty entry list. -/
def monitor_async (f : Feed) (fetch : Option RssD) :
    Feed × List Event × MonitorResult :=
  match fetch with
  | none => (f, [], .fetchFailed)
  | some rss =>
    match rss.entries with
    | [] => (f, [], .fetchFailed)
    | e0 :: _ =>
      let feedLast := diff_key e0
      if f.last = some feedLast then (f, [], .noUpdate)
      else
        let stop := rss.entries.findIdx? (fun e => f.last == some (diff_key e))
        let evs := [Event.setLast feedLast, Event.dbWrite f.name f.link feedLast true]
        match stop with
        | none => ({ f with last := some feedLast }, evs, .updated)
        | some 0 => ({ f with last := some feedLast }, evs, .updated)
        | some (i + 1) =>
          ({ f with last := some feedLast },
           evs ++ (send_entries rss.entries 0 (some (i + 1)) true).map .dispatch,
           .updated)

/-! ### Helper lemmas about findIdx? and the send slice -/

theorem findIdx?_eq_some_of_first {α : Type} (p : α → Bool) (l : List α)
    (i : Nat) (a : α) (ha : l[i]? = some a) (hpa : p a = true)
    (hfirst : ∀ j b, j < i → l[j]? = some b → p b = false) :
    l.findIdx? p = some i := by
  induction l generalizing i with
  | nil => simp at ha
  | cons x xs ih =>
    cases i with
    | zero =>
      simp only [List.getElem?_cons_zero, Option.some.injEq] at ha
      subst ha
      simp [List.findIdx?_cons, hpa]
    | succ n =>
      have hx : p x = false := hfirst 0 x (Nat.succ_pos n) (by simp)
      have hxs : xs.findIdx? p = some n := by
        refine ih n (by simpa using ha) ?_
        intro j b hj hjb
        exact hfirst (j + 1) b (Nat.succ_lt_succ hj) (by simpa using hjb)
      simp [List.findIdx?_cons, hx, List.findIdx?_succ, hxs]

theorem send_entries_take_reverse (entries : List Entry) (i : Nat)
    (h : entries ≠ []) :
    send_entries entries 0 (some i) true = (entries.take i).reverse := by
  have hlen : ¬ (0 ≥ entries.length) := by
    simpa [Nat.pos_iff_ne_zero] using List.length_pos.mpr h
  simp [send_entries, hlen]

/-- C1: for a feed whose last-seen marker is L, when a poll returns an
entry list in which the first entry whose diff key equals L sits at
index i > 0, exactly the entries at indices [0, i) are dispatched, in
reverse of feed order (oldest first), and the marker becomes the diff
key of entries[0], which is also written durably. -/
theorem monitor_dispatch_window (f : Feed) (title : Option String)
    (entries : List Entry) (L : String) (i : Nat) (e0 ei : Entry)
    (hlast : f.last = some L)
    (h0 : entries[0]? = some e0)
    (hi : entries[i]? = some ei) (hkey : diff_key ei = L)
    (hfirst : ∀ j b, j < i → entries[j]? = some b → diff_key b ≠ L)
    (hipos : 0 < i) :
    monitor_async f (some ⟨entries, title⟩) =
      ({ f with last := some (diff_key e0) },
       [Event.setLast (diff_key e0), Event.dbWrite f.name f.link (diff_key e0) true]
         ++ ((entries.take i).reverse).map Event.dispatch,
       MonitorResult.updated) := by
  obtain ⟨tl, rfl⟩ : ∃ tl, entries = e0 :: tl := by
    cases entries with
    | nil => simp at h0
    | cons x tl =>
      simp only [List.getElem?_cons_zero, Option.some.injEq] at h0
      exact ⟨tl, by rw [h0]⟩
  have hne : ¬ (f.last = some (diff_key e0)) := by
    rw [hlast]
    intro hcontra
    exact hfirst 0 e0 hipos (by simp) (by
      simpa using (Option.some.injEq _ _ ▸ hcontra).symm)
  have hfind : (e0 :: tl).findIdx? (fun e => f.last == some (diff_key e)) = some i := by
    refine findIdx?_eq_some_of_first _ _ i ei hi (by simp [hlast, hkey]) ?_
    intro j b hj hjb
    have := hfirst j b hj hjb
    simp [hlast]
    exact fun h => absurd h.symm this
  obtain ⟨n, rfl⟩ : ∃ n, i = n + 1 := by
    cases i with
    | zero => exact absurd hipos (by simp)
    | succ n => exact ⟨n, rfl⟩
  have hsend := send_entries_take_reverse (e0 :: tl) (n + 1) (by simp)
  simp only [monitor_async, hfind, if_neg hne, hsend]

/-- C2: when a poll returns entries none of whose diff keys equals the
previous marker, zero entries are dispatched, yet the marker is still
advanced (in memory and durably) to the diff key of the new top entry:
the lossy-recovery branch of src/src/feed.py:59-60. -/
theorem monitor_lossy_recovery (f : Feed) (title : Option String)
    (entries : List Entry) (e0 : Entry)
    (h0 : entries[0]? = some e0)
    (hnone : ∀ e ∈ entries, some (diff_key e) ≠ f.last) :
    monitor_async f (some ⟨entries, title⟩) =
      ({ f with last := some (diff_key e0) },
       [Event.setLast (diff_key e0), Event.dbWrite f.name f.link (diff_key e0) true],
       MonitorResult.updated) := by
  obtain ⟨tl, rfl⟩ : ∃ tl, entries = e0 :: tl := by
    cases entries with
    | nil => simp at h0
    | cons x tl =>
      simp only [List.getElem?_cons_zero, Option.some.injEq] at h0
      exact ⟨tl, by rw [h0]⟩
  have hne : ¬ (f.last = some (diff_key e0)) := by
    intro hcontra
    exact hnone e0 (List.mem_cons_self _ _) hcontra.symm
  have hfind : (e0 :: tl).findIdx? (fun e => f.last == some (diff_key e)) = none := by
    rw [List.findIdx?_eq_none_iff]
    intro x hx
    have := hnone x hx
    simp
    exact fun h => absurd h.symm this
  simp only [monitor_async, hfind, if_neg hne]

/-- C3: when the top entry of a poll has the same diff key as the
current marker, the poll is a no-op: no dispatch, no marker change, no
persistence write, and repeating the same poll result leaves the state
identical. -/
theorem monitor_noop_when_top_unchanged (f : Feed) (title : Option String)
    (entries : List Entry) (e0 : Entry)
    (h0 : entries[0]? = some e0) (hlast : f.last = some (diff_key e0)) :
    monitor_async f (some ⟨entries, title⟩) = (f, [], MonitorResult.noUpdate) ∧
    monitor_async (monitor_async f (some ⟨entries, title⟩)).1 (some ⟨entries, title⟩)
      = monitor_async f (some ⟨entries, title⟩) := by
  obtain ⟨tl, rfl⟩ : ∃ tl, entries = e0 :: tl := by
    cases entries with
    | nil => simp at h0
    | cons x tl =>
      simp only [List.getElem?_cons_zero, Option.some.injEq] at h0
      exact ⟨tl, by rw [h0]⟩
  have h1 : monitor_async f (some ⟨e0 :: tl, title⟩) = (f, [], MonitorResult.noUpdate) := by
    simp only [monitor_async, if_pos hlast]
  exact ⟨h1, by rw [h1]; exact h1⟩

/-- C4 (amended): on a poll that detects a changed top diff key, the
event order is: the in-memory marker is advanced first, the durable
write follows immediately, and only then are any entries dispatched;
so dispatch never precedes the durable write, but the durable marker
briefly lags the in-memory marker rather than the other way around. -/
theorem monitor_persist_before_dispatch (f : Feed) (title : Option String)
    (entries : List Entry) (e0 : Entry)
    (h0 : entries[0]? = some e0) (hch : f.last ≠ some (diff_key e0)) :
    ∃ ds, monitor_async f (some ⟨entries, title⟩) =
      ({ f with last := some (diff_key e0) },
       Event.setLast (diff_key e0) :: Event.dbWrite f.name f.link (diff_key e0) true :: ds,
       MonitorResult.updated)
      ∧ ∀ ev ∈ ds, ∃ e, ev = Event.dispatch e := by
  obtain ⟨tl, rfl⟩ : ∃ tl, entries = e0 :: tl := by
    cases entries with
    | nil => simp at h0
    | cons x tl =>
      simp only [List.getElem?_cons_zero, Option.some.injEq] at h0
      exact ⟨tl, by rw [h0]⟩
  simp only [monitor_async, if_neg hch]
  cases hfind : (e0 :: tl).findIdx? (fun e => f.last == some (diff_key e)) with
  | none => exact ⟨[], rfl, by simp⟩
  | some k =>
    cases k with
    | zero => exact ⟨[], rfl, by simp⟩
    | succ n =>
      refine ⟨(send_entries (e0 :: tl) 0 (some (n + 1)) true).map Event.dispatch, rfl, ?_⟩
      intro ev hev
      obtain ⟨e, _, rfl⟩ := List.mem_map.mp hev
      exact ⟨e, rfl⟩

/-- Classifier for in-memory marker-advance events. -/
def Event.isSetLast : Event → Bool
  | .setLast _ => true
  | _ => false

/-- Classifier for durable database write events. -/
def Event.isDbWrite : Event → Bool
  | .dbWrite _ _ _ _ => true
  | _ => false

/-- C4 counterexample: on a concrete updated poll, the first event of
the trace is the in-memory marker advance (index 0) and the durable
write only comes second (index 1): the durable write does not happen
first, and the durable marker lags the in-memory marker between the
two events. -/
theorem monitor_inmemory_advance_precedes_durable_write :
    ((monitor_async ⟨some 1, some "n", "l", some "old"⟩
        (some ⟨[⟨some "new", "ln"⟩, ⟨some "old", "lo"⟩], none⟩)).2.1.findIdx?
          Event.isSetLast = some 0)
    ∧ ((monitor_async ⟨some 1, some "n", "l", some "old"⟩
        (some ⟨[⟨some "new", "ln"⟩, ⟨some "old", "lo"⟩], none⟩)).2.1.findIdx?
          Event.isDbWrite = some 1) := by
  constructor <;> rfl

/-- C1 witness: concrete run of the dispatch-window theorem with
marker B and fetched keys [A, B, C]: entry A alone is dispatched and
the marker becomes A. -/
theorem monitor_dispatch_window_witness :
    monitor_async ⟨some 1, some "f", "http://f", some "B"⟩
        (some ⟨[⟨none, "A"⟩, ⟨none, "B"⟩, ⟨none, "C"⟩], none⟩) =
      (⟨some 1, some "f", "http://f", some "A"⟩,
       [Event.setLast "A", Event.dbWrite (some "f") "http://f" "A" true,
        Event.dispatch ⟨none, "A"⟩],
       MonitorResult.updated) := by
  have h := monitor_dispatch_window ⟨some 1, some "f", "http://f", some "B"⟩ none
    [⟨none, "A"⟩, ⟨none, "B"⟩, ⟨none, "C"⟩] "B" 1 ⟨none, "A"⟩ ⟨none, "B"⟩
    rfl rfl rfl rfl
    (by
      intro j b hj hjb
      have hj0 : j = 0 := by omega
      subst hj0
      simp only [List.getElem?_cons_zero, Option.some.injEq] at hjb
      subst hjb
      decide)
    (by decide)
  simpa using h

/-- C2 witness: concrete run of the lossy-recovery theorem with marker
Z absent from the fetched keys [A, B]: nothing is dispatched yet the
marker advances to A. -/
theorem monitor_lossy_recovery_witness :
    monitor_async ⟨some 1, some "f", "http://f", some "Z"⟩
        (some ⟨[⟨none, "A"⟩, ⟨none, "B"⟩], none⟩) =
      (⟨some 1, some "f", "http://f", some "A"⟩,
       [Event.setLast "A", Event.dbWrite (some "f") "http://f" "A" true],
       MonitorResult.updated) := by
  have h := monitor_lossy_recovery ⟨some 1, some "f", "http://f", some "Z"⟩ none
    [⟨none, "A"⟩, ⟨none, "B"⟩] ⟨none, "A"⟩ rfl
    (by intro e he; fin_cases he <;> decide)
  simpa using h

/-- C3 witness: concrete run of the no-op theorem with marker A equal
to the fetched top key. -/
theorem monitor_noop_when_top_unchanged_witness :
    monitor_async ⟨some 1, some "f", "http://f", some "A"⟩
        (some ⟨[⟨none, "A"⟩, ⟨none, "B"⟩], none⟩) =
      (⟨some 1, some "f", "http://f", some "A"⟩, [], MonitorResult.noUpdate) := by
  exact (monitor_noop_when_top_unchanged ⟨some 1, some "f", "http://f", some "A"⟩ none
    [⟨none, "A"⟩, ⟨none, "B"⟩] ⟨none, "A"⟩ rfl rfl).1

/-- C4 witness: concrete run of the amended ordering theorem. -/
theorem monitor_persist_before_dispatch_witness :
    ∃ ds, monitor_async ⟨some 1, some "f", "http://f", some "B"⟩
        (some ⟨[⟨none, "A"⟩, ⟨none, "B"⟩], none⟩) =
      (⟨some 1, some "f", "http://f", some "A"⟩,
       Event.setLast "A" :: Event.dbWrite (some "f") "http://f" "A" true :: ds,
       MonitorResult.updated)
      ∧ ∀ ev ∈ ds, ∃ e, ev = Event.dispatch e := by
  have h := monitor_persist_before_dispatch ⟨some 1, some "f", "http://f", some "B"⟩ none
    [⟨none, "A"⟩, ⟨none, "B"⟩] ⟨none, "A"⟩ rfl (by decide)
  simpa using h

/-! ### Feeds.monitor_async scheduling (src/src/feed.py:115,120-128) -/

/-- Python extended slice l[start::step] (step > 0): the elements at
indices start, start+step, start+2*step, ... in order.  Models the
expression sorted_feeds[head::self._interval] of src/src/feed.py:128. -/
def py_slice_step {α : Type} (l : List α) (start step : Nat) : List α :=
  ((List.range l.length).filter
      (fun idx => decide (start ≤ idx ∧ (idx - start) % step = 0))).filterMap
    (fun idx => l[idx]?)

/-- The feeds due for a given value of datetime.utcnow().minute: head
= minute % interval, then the slice sorted_feeds[head::interval]
(src/src/feed.py:126-128, with the registry snapshot already sorted).
The minute argument here is the wall-clock minute value itself, an
integer in [0, 60). -/
def feeds_due (l : List Feed) (interval minute : Nat) : List Feed :=
  py_slice_step l (minute % interval) interval

/-- The feeds due at absolute minute t (minutes counted from any
epoch): datetime.utcnow().minute (src/src/feed.py:127) is the absolute
minute wrapped at 60, so consecutive polling cycles see the wall-clock
minutes t % 60, (t+1) % 60, ... -/
def feeds_due_at (l : List Feed) (interval t : Nat) : List Feed :=
  feeds_due l interval (t % 60)

theorem mem_py_slice_step {α : Type} (l : List α) (s st : Nat) (a : α) :
    a ∈ py_slice_step l s st ↔
      ∃ i, i < l.length ∧ l[i]? = some a ∧ s ≤ i ∧ (i - s) % st = 0 := by
  simp only [py_slice_step, List.mem_filterMap, List.mem_filter, List.mem_range,
    decide_eq_true_eq]
  constructor
  · rintro ⟨i, ⟨hi, hs, hm⟩, hget⟩
    exact ⟨i, hi, hget, hs, hm⟩
  · rintro ⟨i, hi, hget, hs, hm⟩
    exact ⟨i, ⟨hi, hs, hm⟩, hget⟩

theorem mem_feeds_due_iff (l : List Feed) (iv : Nat) (hiv : 0 < iv)
    (m : Nat) (f : Feed) :
    f ∈ feeds_due l iv m ↔
      ∃ i, i < l.length ∧ l[i]? = some f ∧ i % iv = m % iv := by
  rw [feeds_due, mem_py_slice_step]
  have hs : m % iv < iv := Nat.mod_lt _ hiv
  constructor
  · rintro ⟨i, hi, hget, hle, hmod⟩
    refine ⟨i, hi, hget, ?_⟩
    obtain ⟨q, hq⟩ := Nat.dvd_of_mod_eq_zero hmod
    have hiq : i = m % iv + iv * q := by omega
    subst hiq
    rw [Nat.add_mul_mod_self_left]
    exact Nat.mod_mod_of_dvd _ dvd_rfl
  · rintro ⟨i, hi, hget, hmod⟩
    refine ⟨i, hi, hget, ?_, ?_⟩
    · calc m % iv = i % iv := hmod.symm
        _ ≤ i := Nat.mod_le _ _
    · have hd := Nat.div_add_mod i iv
      have : i - m % iv = iv * (i / iv) := by omega
      rw [this, Nat.mul_mod_right]

/-- Modular arithmetic core of the partition invariant: for a residue
r < iv there is exactly one offset k < iv with (m0 + k) % iv = r. -/
theorem mod_shift_existsUnique (iv m0 r : Nat) (hiv : 0 < iv) (hr : r < iv) :
    ∃! k, k < iv ∧ (m0 + k) % iv = r := by
  have ha : m0 % iv < iv := Nat.mod_lt _ hiv
  refine ⟨(r + iv - m0 % iv) % iv, ⟨Nat.mod_lt _ hiv, ?_⟩, ?_⟩
  · have h1 : (m0 + (r + iv - m0 % iv) % iv) % iv = (m0 + (r + iv - m0 % iv)) % iv :=
      (Nat.ModEq.add_left m0 (Nat.mod_modEq _ _))
    rw [h1]
    have hsplit : m0 + (r + iv - m0 % iv) = iv * (m0 / iv) + (r + iv) := by
      have := Nat.div_add_mod m0 iv
      omega
    rw [hsplit, Nat.mul_add_mod, Nat.add_mod_right, Nat.mod_eq_of_lt hr]
  · rintro k ⟨hk, hkeq⟩
    have h2 : (m0 + (r + iv - m0 % iv) % iv) % iv = r := by
      have h1 : (m0 + (r + iv - m0 % iv) % iv) % iv = (m0 + (r + iv - m0 % iv)) % iv :=
        (Nat.ModEq.add_left m0 (Nat.mod_modEq _ _))
      rw [h1]
      have hsplit : m0 + (r + iv - m0 % iv) = iv * (m0 / iv) + (r + iv) := by
        have := Nat.div_add_mod m0 iv
        omega
      rw [hsplit, Nat.mul_add_mod, Nat.add_mod_right, Nat.mod_eq_of_lt hr]
    have hme : Nat.ModEq iv (m0 + k) (m0 + (r + iv - m0 % iv) % iv) := by
      unfold Nat.ModEq
      rw [hkeq, h2]
    have hcancel : Nat.ModEq iv k ((r + iv - m0 % iv) % iv) :=
      Nat.ModEq.add_left_cancel' m0 hme
    have := hcancel
    unfold Nat.ModEq at this
    rw [Nat.mod_eq_of_lt hk, Nat.mod_eq_of_lt (Nat.mod_lt _ hiv)] at this
    exact this

/-- Partition of the selection over the raw (unwrapped) minute
argument: across interval consecutive values m0, m0+1, ...,
m0+interval-1 every feed of a duplicate-free snapshot is selected in
exactly one of them.  The wall-clock wrap at 60 is layered on top in
feeds_due_partition_of_dvd. -/
theorem feeds_due_partition_no_wrap (l : List Feed) (hnd : l.Nodup) (iv m0 : Nat)
    (hiv : 0 < iv) (f : Feed) (hf : f ∈ l) :
    ∃! k, k < iv ∧ f ∈ feeds_due l iv (m0 + k) := by
  obtain ⟨i, hi, hgi⟩ := List.mem_iff_getElem.mp hf
  have hr : i % iv < iv := Nat.mod_lt _ hiv
  obtain ⟨k0, ⟨hk0lt, hk0eq⟩, hk0uniq⟩ := mod_shift_existsUnique iv m0 (i % iv) hiv hr
  refine ⟨k0, ⟨hk0lt, ?_⟩, ?_⟩
  · rw [mem_feeds_due_iff l iv hiv]
    exact ⟨i, hi, by simp [List.getElem?_eq_getElem hi, hgi], by rw [hk0eq]⟩
  · rintro k ⟨hk, hkdue⟩
    rw [mem_feeds_due_iff l iv hiv] at hkdue
    obtain ⟨j, hj, hgj, hjm⟩ := hkdue
    have hji : j = i := by
      have hgj2 : l[j] = f := by
        have := List.getElem?_eq_getElem hj
        rw [this] at hgj
        exact Option.some.injEq _ _ ▸ hgj
      exact List.Nodup.getElem_inj_iff hnd |>.mp (by rw [hgj2, hgi])
    subst hji
    exact hk0uniq k ⟨hk, hjm.symm⟩

/-- A seven-feed registry snapshot used to exhibit the hour-boundary
failure of the partition invariant. -/
def seven_feeds : List Feed :=
  [⟨some 0, some "f0", "l0", none⟩, ⟨some 1, some "f1", "l1", none⟩,
   ⟨some 2, some "f2", "l2", none⟩, ⟨some 3, some "f3", "l3", none⟩,
   ⟨some 4, some "f4", "l4", none⟩, ⟨some 5, some "f5", "l5", none⟩,
   ⟨some 6, some "f6", "l6", none⟩]

/-- C5 counterexample: with interval 7 (e.g. DELAY = 420 seconds; 7
does not divide 60) and the seven consecutive absolute minutes 57..63,
whose wall-clock minutes 57,58,59,0,1,2,3 have residues 1,2,3,0,1,2,3
mod 7, the feed at sorted index 4 of a seven-feed snapshot is never
selected as due while the feed at index 1 is selected twice: the
claimed exactly-once partition fails across the hour boundary. -/
theorem feeds_due_partition_fails_across_hour :
    ((List.range 7).countP (fun k =>
        decide ((⟨some 4, some "f4", "l4", none⟩ : Feed) ∈
          feeds_due_at seven_feeds 7 (57 + k))) = 0) ∧
    ((List.range 7).countP (fun k =>
        decide ((⟨some 1, some "f1", "l1", none⟩ : Feed) ∈
          feeds_due_at seven_feeds 7 (57 + k))) = 2) ∧
    seven_feeds.Nodup ∧
    (⟨some 4, some "f4", "l4", none⟩ : Feed) ∈ seven_feeds ∧
    (⟨some 1, some "f1", "l1", none⟩ : Feed) ∈ seven_feeds := by
  refine ⟨by decide, by decide, by decide, by decide, by decide⟩

/-- C5 (amended): with the wall-clock minute wrapping at 60, the
per-minute selection head = (t % 60) % interval with stride interval
partitions a fixed duplicate-free registry snapshot over interval
consecutive cycles provided the interval divides 60: every feed is
then selected as due exactly once; when the interval does not divide
60 a window crossing the hour boundary can select some feeds twice and
others never. -/
theorem feeds_due_partition_of_dvd (l : List Feed) (hnd : l.Nodup)
    (iv t0 : Nat) (hiv : 0 < iv) (hdvd : iv ∣ 60) (f : Feed) (hf : f ∈ l) :
    ∃! k, k < iv ∧ f ∈ feeds_due_at l iv (t0 + k) := by
  have heq : ∀ t, feeds_due_at l iv t = feeds_due l iv t := by
    intro t
    unfold feeds_due_at feeds_due
    rw [Nat.mod_mod_of_dvd t hdvd]
  simp only [heq]
  exact feeds_due_partition_no_wrap l hnd iv t0 hiv f hf

/-- C5 witness: a concrete three-feed snapshot, interval 2 (which
divides 60), starting at absolute minute 59 so the window crosses the
hour boundary: each feed is still due in exactly one of the two
cycles. -/
theorem feeds_due_partition_of_dvd_witness :
    ([⟨some 1, some "a", "la", none⟩, ⟨some 2, some "b", "lb", none⟩,
      ⟨some 3, some "c", "lc", none⟩] : List Feed).Nodup ∧
    (⟨some 3, some "c", "lc", none⟩ : Feed) ∈
      ([⟨some 1, some "a", "la", none⟩, ⟨some 2, some "b", "lb", none⟩,
        ⟨some 3, some "c", "lc", none⟩] : List Feed) ∧
    (2 : Nat) ∣ 60 ∧
    ∃! k, k < 2 ∧ (⟨some 3, some "c", "lc", none⟩ : Feed) ∈
      feeds_due_at [⟨some 1, some "a", "la", none⟩, ⟨some 2, some "b", "lb", none⟩,
        ⟨some 3, some "c", "lc", none⟩] 2 (59 + k) :=
  ⟨by decide, by decide, by decide,
   feeds_due_partition_of_dvd _ (by decide) 2 59 (by decide) (by decide) _ (by decide)⟩

/-! ### Feed registry: Feeds.find / add_feed_async / del_feed
(src/src/feed.py:150-199).  The registry dict is embedded as an
association list in dict insertion order. -/

/-- Match predicate of Feeds.find, src/src/feed.py:155-156: strict is
conjunctive with None wildcards, non-strict is disjunctive. -/
def find_match (name link : Option String) (strict : Bool) (g : Feed) : Bool :=
  if strict then
    (name.isNone || g.name == name) && (link.isNone || some g.link == link)
  else
    g.name == name || some g.link == link

/-- Feeds.find, src/src/feed.py:150-158: first feed matching the
name/link query. -/
def find_feed (feeds : List (Nat × Feed)) (name link : Option String)
    (strict : Bool) : Option Feed :=
  if name = none ∧ link = none then none
  else (feeds.find? (fun p => find_match name link strict p.2)).map (·.2)

/-- Feeds.current_fid, src/src/feed.py:196-199: max key + 1, or 1 when
the registry is empty. -/
def current_fid (feeds : List (Nat × Feed)) : Nat :=
  match feeds with
  | [] => 1
  | _ => ((feeds.map Prod.fst).foldr Nat.max 0) + 1

/-- Python dict assignment d[k] = v on an association list: replace in
place when the key exists, else append (dict insertion order). -/
def dict_insert (feeds : List (Nat × Feed)) (k : Nat) (v : Feed) :
    List (Nat × Feed) :=
  if feeds.any (fun p => p.1 == k) then
    feeds.map (fun p => if p.1 == k then (k, v) else p)
  else feeds ++ [(k, v)]

/-- Feeds.add_feed_async, src/src/feed.py:160-181, as a state
transformer: reject on name/link collision (before fetching), reject
on fetch failure, otherwise insert a fresh feed under current_fid and
write it durably.  The `[]` entries case is unreachable because
feed_get_async returns None on an empty entry list
(src/src/feed.py:266). -/
def add_feed_async (feeds : List (Nat × Feed)) (name link : String)
    (fetch : Option RssD) : List (Nat × Feed) × List Event × Option Feed :=
  if (find_feed feeds (some name) (some link) false).isSome then (feeds, [], none)
  else
    match fetch with
    | none => (feeds, [], none)
    | some rss =>
      match rss.entries with
      | [] => (feeds, [], none)
      | e0 :: _ =>
        let last := diff_key e0
        let fid := current_fid feeds
        let feed : Feed := ⟨some fid, some name, link, some last⟩
        (dict_insert feeds fid feed,
         [Event.dbWrite (some name) link last false], some feed)

/-- Feeds.del_feed, src/src/feed.py:183-194: look the feed up by name,
return None without changes when absent, else pop its fid from the
dict and delete it durably.  The fid-less branch is unreachable on a
well-formed registry: every stored feed carries its own key. -/
def del_feed (feeds : List (Nat × Feed)) (name : String) :
    List (Nat × Feed) × List Event × Option Feed :=
  match find_feed feeds (some name) none true with
  | none => (feeds, [], none)
  | some f =>
    match f.fid with
    | some k => (feeds.eraseP (fun p => p.1 == k), [Event.dbDelete name], some f)
    | none => (feeds, [], some f)

theorem le_foldr_max (l : List Nat) (a : Nat) (h : a ∈ l) :
    a ≤ l.foldr Nat.max 0 := by
  induction l with
  | nil => simp at h
  | cons x xs ih =>
    rcases List.mem_cons.mp h with rfl | h2
    · exact Nat.le_max_left _ _
    · exact Nat.le_trans (ih h2) (Nat.le_max_right _ _)

theorem lt_current_fid (feeds : List (Nat × Feed)) (p : Nat × Feed)
    (h : p ∈ feeds) : p.1 < current_fid feeds := by
  cases feeds with
  | nil => simp at h
  | cons q qs =>
    have : p.1 ∈ (q :: qs).map Prod.fst := List.mem_map_of_mem _ h
    have := le_foldr_max _ _ this
    simp only [current_fid]
    omega


theorem find_match_nonstrict (name link : String) (g : Feed) :
    find_match (some name) (some link) false g =
      (g.name == some name || g.link == link) := by
  simp [find_match]

theorem find_match_name_strict (name : String) (g : Feed) :
    find_match (some name) none true g = (g.name == some name) := by
  simp [find_match]

/-- C6: on a well-formed registry (each stored feed carries its own
key), add is rejected with no state change and no durable write when
some existing feed has the same name or the same link; an accepted add
grows the registry by exactly one; removing an existing name shrinks
it by exactly one; removing a missing name changes nothing. -/
theorem registry_add_del_properties (feeds : List (Nat × Feed))
    (name link : String) (fetch : Option RssD)
    (hwf : ∀ p ∈ feeds, p.2.fid = some p.1) :
    ((∃ p ∈ feeds, p.2.name = some name ∨ p.2.link = link) →
        add_feed_async feeds name link fetch = (feeds, [], none)) ∧
    (∀ st2 evs nf, add_feed_async feeds name link fetch = (st2, evs, some nf) →
        st2.length = feeds.length + 1) ∧
    ((∃ p ∈ feeds, p.2.name = some name) →
        (del_feed feeds name).1.length + 1 = feeds.length ∧
        (del_feed feeds name).2.2.isSome) ∧
    ((∀ p ∈ feeds, p.2.name ≠ some name) →
        del_feed feeds name = (feeds, [], none)) := by
  refine ⟨?_, ?_, ?_, ?_⟩
  · rintro ⟨p, hp, hcol⟩
    have hsome : (find_feed feeds (some name) (some link) false).isSome := by
      have hfs : (feeds.find? (fun q => find_match (some name) (some link) false q.2)).isSome := by
        rw [List.find?_isSome]
        refine ⟨p, hp, ?_⟩
        rw [find_match_nonstrict]
        rcases hcol with h | h <;> simp [h]
      obtain ⟨pr, hpr⟩ := Option.isSome_iff_exists.mp hfs
      simp [find_feed, hpr]
    simp [add_feed_async, hsome]
  · intro st2 evs nf hadd
    by_cases hcol : (find_feed feeds (some name) (some link) false).isSome
    · simp [add_feed_async, hcol] at hadd
    · rw [add_feed_async.eq_def, if_neg hcol] at hadd
      match fetch, hadd with
      | none, hadd => simp at hadd
      | some rss, hadd =>
        match hE : rss.entries, hadd with
        | [], hadd => simp [hE] at hadd
        | e0 :: tl, hadd =>
          simp only [hE] at hadd
          have hfresh : feeds.any (fun p => p.1 == current_fid feeds) = false := by
            rw [List.any_eq_false]
            intro p hp
            have := lt_current_fid feeds p hp
            simp only [beq_iff_eq]
            omega
          have hst : st2 = dict_insert feeds (current_fid feeds)
              ⟨some (current_fid feeds), some name, link, some (diff_key e0)⟩ := by
            have := congrArg Prod.fst hadd
            simpa using this.symm
          rw [hst, dict_insert, if_neg (by simp [hfresh])]
          simp
  · rintro ⟨p, hp, hname⟩
    have hfs : (feeds.find? (fun q => find_match (some name) none true q.2)).isSome := by
      rw [List.find?_isSome]
      exact ⟨p, hp, by rw [find_match_name_strict]; simp [hname]⟩
    obtain ⟨pr, hfind⟩ := Option.isSome_iff_exists.mp hfs
    have hmem := List.mem_of_find?_eq_some hfind
    have hfid := hwf pr hmem
    have hff : find_feed feeds (some name) none true = some pr.2 := by
      simp [find_feed, hfind]
    have hdel : del_feed feeds name =
        (feeds.eraseP (fun q => q.1 == pr.1), [Event.dbDelete name], some pr.2) := by
      simp only [del_feed, hff, hfid]
    have hlen : (feeds.eraseP (fun q => q.1 == pr.1)).length = feeds.length - 1 :=
      List.length_eraseP_of_mem hmem (by simp)
    have hpos : 0 < feeds.length := List.length_pos.mpr (by
      intro h
      rw [h] at hmem
      simp at hmem)
    rw [hdel]
    refine ⟨by simp only [hlen]; omega, by simp⟩
  · intro hnone
    have hfindn : feeds.find? (fun q => find_match (some name) none true q.2) = none := by
      rw [List.find?_eq_none]
      intro q hq
      rw [find_match_name_strict]
      simp [hnone q hq]
    have hff : find_feed feeds (some name) none true = none := by
      simp [find_feed, hfindn]
    simp only [del_feed, hff]

/-- C6 witness: concrete registry with one feed named a; adding a
colliding name is rejected with no write, removing feed a shrinks the
registry to zero, removing a missing name is a no-op. -/
theorem registry_add_del_properties_witness :
    (add_feed_async [(1, ⟨some 1, some "a", "la", some "x"⟩)] "a" "lb"
        (some ⟨[⟨none, "k"⟩], some "t"⟩) =
      ([(1, ⟨some 1, some "a", "la", some "x"⟩)], [], none)) ∧
    ((del_feed [(1, ⟨some 1, some "a", "la", some "x"⟩)] "a").1.length + 1 = 1) ∧
    (del_feed [(1, ⟨some 1, some "a", "la", some "x"⟩)] "b" =
      ([(1, ⟨some 1, some "a", "la", some "x"⟩)], [], none)) := by
  have h := registry_add_del_properties [(1, ⟨some 1, some "a", "la", some "x"⟩)]
    "a" "lb" (some ⟨[⟨none, "k"⟩], some "t"⟩) (by decide)
  have h2 := registry_add_del_properties [(1, ⟨some 1, some "a", "la", some "x"⟩)]
    "b" "lb" none (by decide)
  refine ⟨h.1 ⟨(1, ⟨some 1, some "a", "la", some "x"⟩), by decide, by decide⟩, ?_, ?_⟩
  · exact (h.2.2.1 ⟨(1, ⟨some 1, some "a", "la", some "x"⟩), by decide, by decide⟩).1
  · exact h2.2.2.2 (by decide)

/-! ### proxy_filter (src/src/web.py:56-74) -/

/-- Python runtime errors relevant here. -/
inductive PyErr where
  | indexError
  deriving DecidableEq, Repr

/-- Python negative string index s[-k] (k ≥ 1): the k-th character
from the end, or an IndexError (modelled as none) when k exceeds the
string length. -/
def py_neg_index (s : String) (k : Nat) : Option Char :=
  s.data.reverse[k - 1]?

/-- Python str.endswith. -/
def py_endswith (s t : String) : Bool :=
  t.data.isSuffixOf s.data

/-- The generator scanned by any(...) at src/src/web.py:70-71:
hostname.endswith(domain) and hostname[-len(domain) - 1] == a dot.
The conjunction short-circuits, any(...) stops at the first truthy
element, and evaluating the negative index beyond the string start
raises IndexError. -/
def bypass_scan (hostname : String) : List String → Except PyErr Bool
  | [] => .ok false
  | d :: ds =>
    if py_endswith hostname d then
      match py_neg_index hostname (d.length + 1) with
      | none => .error .indexError
      | some c => if c = '.' then .ok true else bypass_scan hostname ds
    else bypass_scan hostname ds

/-- proxy_filter, src/src/web.py:56-74, deciding whether the proxy is
used (true) or bypassed (false) for a URL with the given hostname.
The private-address branch (ip_address plus the PRIVATE_NETWORKS
table) is abstracted as isPrivateIp: none models the ValueError path
(hostname is not an IP literal), some b the parsed membership test. -/
def proxy_filter (bypassPrivate : Bool) (isPrivateIp : Option Bool)
    (bypassDomains : List String) (hostname : String) : Except PyErr Bool :=
  if ¬ (bypassPrivate ∨ bypassDomains ≠ []) then .ok true
  else if bypassPrivate ∧ isPrivateIp = some true then .ok false
  else if bypassDomains ≠ [] then
    match bypass_scan hostname bypassDomains with
    | .error e => .error e
    | .ok true => .ok false
    | .ok false => .ok true
  else .ok true

/-- C10 counterexample: with bypass domains [com, b.com] and hostname
b.com, the hostname equals a configured bypass domain, yet
proxy_filter returns a boolean (bypass, no IndexError), because the
earlier domain com already matches at a dot boundary and any(...)
short-circuits; this also violates the claimed "returns a boolean only
when every suffix match leaves a preceding character". -/
theorem proxy_filter_equal_domain_no_crash :
    proxy_filter false none ["com", "b.com"] "b.com" = .ok false ∧
    "b.com" ∈ ["com", "b.com"] ∧
    py_endswith "b.com" "b.com" = true ∧
    ¬ (String.length "b.com" < String.length "b.com") := by
  refine ⟨?_, by decide, by decide, by decide⟩
  rfl

theorem py_neg_index_self_overflow (h : String) :
    py_neg_index h (h.length + 1) = none := by
  apply List.getElem?_eq_none
  rw [List.length_reverse]
  have hl : h.length = h.data.length := rfl
  omega

theorem py_endswith_self (h : String) : py_endswith h h = true := by
  simp [py_endswith]

theorem bypass_scan_cons (h d : String) (ds : List String) :
    bypass_scan h (d :: ds) =
      if py_endswith h d then
        match py_neg_index h (d.length + 1) with
        | none => .error .indexError
        | some c => if c = '.' then .ok true else bypass_scan h ds
      else bypass_scan h ds := rfl

/-- C10 (amended): the proxy bypass decision is not total: whenever
the domain scan reaches a configured domain exactly equal to the
hostname (every earlier domain neither crashing nor matching at a dot
boundary), proxy_filter raises IndexError from evaluating
hostname[-len(domain) - 1] instead of returning a decision; and
proxy_filter returns a boolean whenever every configured domain that
suffix-matches the hostname leaves at least one preceding
character. -/
theorem proxy_filter_partiality :
    (∀ (h : String) (pre post : List String),
      (∀ d ∈ pre, py_endswith h d = false ∨
        (∃ c, py_neg_index h (d.length + 1) = some c ∧ c ≠ '.')) →
      proxy_filter false none (pre ++ h :: post) h = .error .indexError) ∧
    (∀ (bp : Bool) (ip : Option Bool) (domains : List String) (h : String),
      (∀ d ∈ domains, py_endswith h d = true → d.length < h.length) →
      ∃ b, proxy_filter bp ip domains h = .ok b) := by
  constructor
  · intro h pre post hpre
    have hscan : bypass_scan h (pre ++ h :: post) = .error .indexError := by
      induction pre with
      | nil =>
        simp [bypass_scan_cons, py_endswith_self, py_neg_index_self_overflow]
      | cons d ds ih =>
        have hstep := hpre d (List.mem_cons_self _ _)
        have hds : ∀ x ∈ ds, py_endswith h x = false ∨
            (∃ c, py_neg_index h (x.length + 1) = some c ∧ c ≠ '.') :=
          fun x hx => hpre x (List.mem_cons_of_mem _ hx)
        rcases hstep with hfalse | ⟨c, hc, hcd⟩
        · simpa [bypass_scan_cons, hfalse] using ih hds
        · by_cases he : py_endswith h d = true
          · simpa [bypass_scan_cons, he, hc, hcd] using ih hds
          · simpa [bypass_scan_cons, he] using ih hds
    have hne : (pre ++ h :: post) ≠ [] := by simp
    simp [proxy_filter, hne, hscan]
  · intro bp ip domains h hdom
    have hscan : ∃ r, bypass_scan h domains = .ok r := by
      induction domains with
      | nil => exact ⟨false, rfl⟩
      | cons d ds ih =>
        have hds : ∀ x ∈ ds, py_endswith h x = true → x.length < h.length :=
          fun x hx => hdom x (List.mem_cons_of_mem _ hx)
        by_cases he : py_endswith h d = true
        · have hlt := hdom d (List.mem_cons_self _ _) he
          have hidx : d.length + 1 - 1 < h.data.reverse.length := by
            simp only [List.length_reverse]
            have : h.length = h.data.length := rfl
            omega
          obtain ⟨c, hc⟩ : ∃ c, py_neg_index h (d.length + 1) = some c :=
            ⟨_, List.getElem?_eq_getElem hidx⟩
          by_cases hdot : c = '.'
          · exact ⟨true, by simp [bypass_scan_cons, he, hc, hdot]⟩
          · obtain ⟨r, hr⟩ := ih hds
            exact ⟨r, by simp [bypass_scan_cons, he, hc, hdot, hr]⟩
        · obtain ⟨r, hr⟩ := ih hds
          exact ⟨r, by simp [bypass_scan_cons, he, hr]⟩
    obtain ⟨r, hr⟩ := hscan
    by_cases h1 : ¬ (bp = true ∨ domains ≠ [])
    · exact ⟨true, by simp [proxy_filter, h1]⟩
    · by_cases h2 : bp = true ∧ ip = some true
      · refine ⟨false, ?_⟩
        simp only [proxy_filter]
        rw [if_neg (by simpa using h1), if_pos h2]
      · by_cases h3 : domains ≠ []
        · cases r with
          | true =>
            refine ⟨false, ?_⟩
            simp only [proxy_filter]
            rw [if_neg (by simpa using h1), if_neg h2, if_pos h3, hr]
          | false =>
            refine ⟨true, ?_⟩
            simp only [proxy_filter]
            rw [if_neg (by simpa using h1), if_neg h2, if_pos h3, hr]
        · refine ⟨true, ?_⟩
          simp only [proxy_filter]
          rw [if_neg (by simpa using h1), if_neg h2, if_neg h3]

/-- C10 witness: a single bypass domain equal to the hostname raises
IndexError; a proper-suffix configuration returns a decision. -/
theorem proxy_filter_partiality_witness :
    proxy_filter false none ["a.com"] "a.com" = .error .indexError ∧
    ∃ b, proxy_filter false none ["com"] "b.com" = .ok b :=
  ⟨proxy_filter_partiality.1 "a.com" [] [] (by simp),
   proxy_filter_partiality.2 false none ["com"] "b.com" (by decide)⟩

/-! ### Fetch adapters: web.feed_get (src/src/web.py:131-197) and the
older feed.feed_get_async (src/src/feed.py:261-281) -/

/-- Exceptional outcomes of web.get as caught by web.feed_get:
InvalidURL, the network-error tuple, and any other exception. -/
inductive GetErr where
  | invalidUrl
  | network
  | other
  deriving DecidableEq, Repr

/-- Non-exceptional outcome of web.get (src/src/web.py:77-116):
status code, the parsed Content-Length header with default 1
(int(headers.get(..., 1)), src/src/web.py:154), and the body, which
web.get only reads when the status is 200. -/
structure GetResult where
  status : Int
  contentLen : Int
  content : Option String
  deriving DecidableEq, Repr

/-- User-facing message classification of web.feed_get
(the msg field of src/src/web.py:135-196). -/
inductive FeedMsg where
  | statusCodeError (code : Int)
  | contentLenZero
  | notModified
  | feedInvalid
  | urlInvalid
  | networkError
  | internalError
  deriving DecidableEq, Repr

/-- Return dict of web.feed_get (src/src/web.py:135-139). -/
structure FeedGetRet where
  status : Int
  rss_d : Option RssD
  msg : Option FeedMsg
  deriving DecidableEq, Repr

/-- web.feed_get, src/src/web.py:131-197, over an abstract fetch
outcome and the external feed-format parser.  The over-512KiB worker
offload (lines 168-174) calls the same parser and is a pure
concurrency detail, so both size branches collapse to one parse. -/
def feed_get (res : Except GetErr GetResult) (parse : String → RssD) :
    FeedGetRet :=
  match res with
  | .error .invalidUrl => ⟨-1, none, some .urlInvalid⟩
  | .error .network => ⟨-1, none, some .networkError⟩
  | .error .other => ⟨-1, none, some .internalError⟩
  | .ok g =>
    if g.status = 200 ∧ g.contentLen = 0 then ⟨304, none, some .contentLenZero⟩
    else if g.status = 304 then ⟨g.status, none, some .notModified⟩
    else
      match g.content with
      | none => ⟨g.status, none, some (.statusCodeError g.status)⟩
      | some body =>
        let d := parse body
        if d.feedTitle = none then ⟨g.status, none, some .feedInvalid⟩
        else ⟨g.status, some d, none⟩

/-- User-facing message classification of the older
feed.feed_get_async (src/src/feed.py:261-281). -/
inductive OldMsg where
  | feedError
  | networkError
  | internalError
  deriving DecidableEq, Repr

/-- Exceptional outcomes of web.get_async as caught by
feed.feed_get_async (the network tuple at src/src/feed.py:271, and
any other exception). -/
inductive GetErrOld where
  | network
  | other
  deriving DecidableEq, Repr

/-- feed.feed_get_async, src/src/feed.py:261-281: parse the fetched
body and reject it as not a feed exactly when the parsed entry list is
empty; the feed title is never consulted. -/
def feed_get_async (res : Except GetErrOld String) (parse : String → RssD) :
    Option RssD × Option OldMsg :=
  match res with
  | .error .network => (none, some .networkError)
  | .error .other => (none, some .internalError)
  | .ok body =>
    let d := parse body
    if d.entries = [] then (none, some .feedError) else (some d, none)

/-- C8 counterexample: a parsed body whose feed metadata has a title
but whose entry list is empty is accepted by web.feed_get yet rejected
as not-a-feed by feed.feed_get_async, so the absence of a title is not
the sole invalid-feed signal in the program. -/
theorem invalid_feed_not_sole_signal :
    feed_get_async (.ok "body") (fun _ => ⟨[], some "T"⟩) =
      (none, some OldMsg.feedError) ∧
    feed_get (.ok ⟨200, 5, some "body"⟩) (fun _ => ⟨[], some "T"⟩) =
      ⟨200, some ⟨[], some "T"⟩, none⟩ ∧
    (fun _ => (⟨[], some "T"⟩ : RssD)) "body" = ⟨[], some "T"⟩ := by
  exact ⟨rfl, rfl, rfl⟩

/-- C8 (amended): within web.feed_get a successfully fetched and
parsed body is classified invalid exactly when its parsed feed
metadata lacks a title, and that is the only invalid-feed signal of
web.feed_get; but the older feed.feed_get_async classifies a fetched
body as not a feed exactly when its parsed entry list is empty,
independent of any title, so title absence is not the sole
invalid-feed signal of the program. -/
theorem invalid_feed_characterization :
    (∀ (res : Except GetErr GetResult) (parse : String → RssD),
      (feed_get res parse).msg = some FeedMsg.feedInvalid ↔
        ∃ g body, res = .ok g ∧ ¬ (g.status = 200 ∧ g.contentLen = 0) ∧
          g.status ≠ 304 ∧ g.content = some body ∧
          (parse body).feedTitle = none) ∧
    (∀ (res : Except GetErrOld String) (parse : String → RssD),
      (feed_get_async res parse).2 = some OldMsg.feedError ↔
        ∃ body, res = .ok body ∧ (parse body).entries = []) := by
  constructor
  · intro res parse
    match res with
    | .error .invalidUrl => simp [feed_get]
    | .error .network => simp [feed_get]
    | .error .other => simp [feed_get]
    | .ok g =>
      by_cases h1 : g.status = 200 ∧ g.contentLen = 0
      · simp only [feed_get, if_pos h1]
        constructor
        · intro h
          simp at h
        · rintro ⟨g2, body, hg2, hn1, _, _, _⟩
          cases hg2
          exact absurd h1 hn1
      · by_cases h2 : g.status = 304
        · simp only [feed_get, if_neg h1, if_pos h2]
          constructor
          · intro h
            simp at h
          · rintro ⟨g2, body, hg2, _, hn2, _, _⟩
            cases hg2
            exact absurd h2 hn2
        · match hc : g.content with
          | none =>
            simp only [feed_get, if_neg h1, if_neg h2, hc]
            constructor
            · intro h
              simp at h
            · rintro ⟨g2, body, hg2, _, _, hcon, _⟩
              cases hg2
              rw [hc] at hcon
              simp at hcon
          | some body =>
            simp only [feed_get, if_neg h1, if_neg h2, hc]
            by_cases ht : (parse body).feedTitle = none
            · simp only [if_pos ht]
              exact ⟨fun _ => ⟨g, body, rfl, h1, h2, hc, ht⟩, fun _ => by trivial⟩
            · simp only [if_neg ht]
              constructor
              · intro h
                simp at h
              · rintro ⟨g2, body2, hg2, _, _, hcon, ht2⟩
                cases hg2
                rw [hc] at hcon
                simp only [Option.some.injEq] at hcon
                rw [← hcon] at ht2
                exact absurd ht2 ht
  · intro res parse
    match res with
    | .error .network => simp [feed_get_async]
    | .error .other => simp [feed_get_async]
    | .ok body =>
      by_cases he : (parse body).entries = []
      · simp only [feed_get_async, if_pos he]
        exact ⟨fun _ => ⟨body, rfl, he⟩, fun _ => by trivial⟩
      · simp only [feed_get_async, if_neg he]
        constructor
        · intro h
          simp at h
        · rintro ⟨body2, hb, he2⟩
          simp only [Except.ok.injEq] at hb
          rw [← hb] at he2
          exact absurd he2 he

/-! ### HTML content parser (src/src/parsing/html_parser.py) -/

/-- Descriptor unit of one srcset candidate: intrinsic width (w) or
pixel density (x), as captured by the srcsetParser regex group
(src/src/parsing/html_parser.py:18-25). -/
inductive SrcsetUnit where
  | w
  | x
  deriving DecidableEq, Repr

/-- One match of the srcsetParser regex: the url group always
matches, the number/unit groups are optional
(src/src/parsing/html_parser.py:18-25,126-131). -/
structure RawMatch where
  url : String
  number : Option ℚ
  unit : Option SrcsetUnit
  deriving DecidableEq, Repr

/-- A normalized srcset candidate: number defaults to 1 and unit to x
when the descriptor is absent (src/src/parsing/html_parser.py:127-129). -/
structure SrcsetMatch where
  url : String
  number : ℚ
  unit : SrcsetUnit
  deriving DecidableEq, Repr

/-- Default filling of src/src/parsing/html_parser.py:127-129. -/
def normalize_match (r : RawMatch) : SrcsetMatch :=
  ⟨r.url, r.number.getD 1, r.unit.getD .x⟩

/-- Stable insertion for descending sort by number: the new element
goes before the first element whose number is ≤ its own, so earlier
elements with equal keys stay earlier, matching Python stable
list.sort(key=..., reverse=True) (src/src/parsing/html_parser.py:136-137). -/
def insert_desc (m : SrcsetMatch) : List SrcsetMatch → List SrcsetMatch
  | [] => [m]
  | x :: xs => if x.number ≤ m.number then m :: x :: xs else x :: insert_desc m xs

/-- Stable descending sort by number. -/
def sort_desc : List SrcsetMatch → List SrcsetMatch
  | [] => []
  | x :: xs => insert_desc x (sort_desc xs)

/-- The while-True merge loop of src/src/parsing/html_parser.py:138-149:
pop the best remaining w-candidate and the best remaining x-candidate;
append the w url; append the x url unless its density is ≤ 1 while
w-candidates remain, in which case it is pushed back for the next
round.  When no w-candidates are left every x-candidate is emitted in
order. -/
def merge_srcset : List SrcsetMatch → List SrcsetMatch → List String
  | [], xs => xs.map (·.url)
  | w :: ws, xs =>
    match xs with
    | [] => w.url :: merge_srcset ws []
    | x :: xs2 =>
      if x.number ≤ 1 ∧ ws ≠ [] then w.url :: merge_srcset ws (x :: xs2)
      else w.url :: x.url :: merge_srcset ws xs2

/-- The _multi_src candidate list of the img branch
(src/src/parsing/html_parser.py:124-151): with a truthy srcset
attribute, regex matches are normalized, src is injected as an
implicit 1x candidate, candidates split by unit and sorted descending,
then merged; without srcset the plain src is the only candidate. -/
def img_multi_src (src : Option String) (srcsetRaws : Option (List RawMatch)) :
    List String :=
  match srcsetRaws with
  | some raws =>
    let ms := raws.map normalize_match ++
      (match src with | some s => [⟨s, 1, .x⟩] | none => [])
    if ms = [] then []
    else
      merge_srcset (sort_desc (ms.filter (fun m => m.unit == SrcsetUnit.w)))
        (sort_desc (ms.filter (fun m => m.unit == SrcsetUnit.x)))
  | none => match src with | some s => [s] | none => []

/-- Media items collected by the parser: the Image/Animation/Video
classes of src/src/parsing/medium.py (not under src/; the candidate
list and poster fallback follow the constructor calls at
src/src/parsing/html_parser.py:163,180). -/
inductive MediaItem where
  | image (urls : List String)
  | animation (urls : List String)
  | video (urls : List String) (poster : Option String)
  deriving DecidableEq, Repr

/-- Candidate URL list of a media item, best first. -/
def MediaItem.urls : MediaItem → List String
  | .image u => u
  | .animation u => u
  | .video u _ => u

/-- Content tree nodes.  Modelled from the spec: the html_node module
is not under src/; section 3 of the spec lists the node kinds (text
run, bold, italic, underline, line-break, horizontal-rule, hyperlink,
ordered/unordered list, list item, code/pre block) and the parser
composes them in order via Text([...]) groups, which the group
constructor models. -/
inductive HtmlNode where
  | text (s : String)
  | group (items : List HtmlNode)
  | br (count : Nat)
  | hr
  | bold (content : HtmlNode)
  | italic (content : HtmlNode)
  | underline (content : HtmlNode)
  | link (content : HtmlNode) (href : String)
  | code (content : Option HtmlNode)
  | pre (content : Option HtmlNode)
  | listItem (content : HtmlNode)
  | orderedList (items : List HtmlNode)
  | unorderedList (items : List HtmlNode)

/-- Ambient pure collaborators of the parser, fixed per Parser
instance: emojify and is_absolute_link come from parsing/utils (not
under src/), urljoin and urlparse from the standard library, the
isSmallIcon regex and srcsetParser regex from
src/src/parsing/html_parser.py:17-25, node_str models html_node
__str__ (used by the f-string at line 233), strip_node models
HtmlNode.strip (line 90).  feed_link is the Parser construction
argument. -/
structure Ctx where
  emojify : String → String
  tokenize_srcset : String → List RawMatch
  style_small_icon : String → Bool
  is_absolute_link : String → Bool
  urljoin : String → String → String
  feed_link : Option String
  netloc : String → String
  url_path : String → String
  node_str : HtmlNode → String
  strip_node : HtmlNode → HtmlNode

/-- URL resolution pattern used throughout the parser:
not is_absolute_link(u) and feed_link imply urljoin(feed_link, u)
(src/src/parsing/html_parser.py:109-110,157-158,176-177,219-220). -/
def Ctx.resolve (c : Ctx) (u : String) : String :=
  match c.feed_link with
  | some b => if ¬ c.is_absolute_link u then c.urljoin b u else u
  | none => u

/-- Python str.startswith. -/
def py_startswith (s t : String) : Bool :=
  t.data.isPrefixOf s.data

/-- Animated-format extension test on a URL path
(src/src/parsing/html_parser.py:159). -/
def anim_ext (p : String) : Bool :=
  py_endswith p ".gif" || py_endswith p ".gifv" || py_endswith p ".webm" ||
    py_endswith p ".mp4" || py_endswith p ".m4v"

/-- Dimension filter: int(attr) <= 30 when the attribute is all
digits, false otherwise since missing/non-digit widths become
float(inf) (src/src/parsing/html_parser.py:119-121). -/
def le30 : Option Nat → Bool
  | some n => decide (n ≤ 30)
  | none => false

/-- The local values of the img branch after the soup.get calls
(src/src/parsing/html_parser.py:114-120): truthiness-normalized src
and tokenized srcset, alt and style with default empty string, the
class attribute as its token list (bs4 multi-valued attribute), and
width/height parsed when all digits. -/
structure ImgAttrs where
  src : Option String
  srcset : Option (List RawMatch)
  alt : String
  classTokens : List String
  style : String
  width : Option Nat
  height : Option Nat

/-- Outcome of the img branch: nothing, an emoji text run, or a
collected media item (the branch itself always returns None when media
is collected; the item goes to the side channel,
src/src/parsing/html_parser.py:162-164). -/
inductive ImgResult where
  | nothing
  | text (s : String)
  | media (m : MediaItem)
  deriving DecidableEq, Repr

/-- The img branch of Parser._parse_item
(src/src/parsing/html_parser.py:113-164): nothing without src and
srcset; the icon filter (explicit dimension ≤ 30, small-dimension
style, emoji class token, or colon-wrapped alt) yields the emojified
alt text instead of media; otherwise the merged candidates are
resolved against the feed link and classified Animation when any
resolved path has an animated extension, else Image. -/
def img_branch (c : Ctx) (a : ImgAttrs) : ImgResult :=
  if a.src = none ∧ a.srcset = none then .nothing
  else if le30 a.width || le30 a.height || c.style_small_icon a.style
      || a.classTokens.contains "emoji"
      || (py_startswith a.alt ":" && py_endswith a.alt ":") then
    if a.alt ≠ "" then .text (c.emojify a.alt) else .nothing
  else
    let resolved := (img_multi_src a.src a.srcset).map c.resolve
    if resolved ≠ [] then
      .media (if resolved.any (fun u => anim_ext (c.url_path u))
        then .animation resolved else .image resolved)
    else .nothing

/-- C7: for an img element with srcset candidates a.jpg 480w and
b.jpg 800w plus src c.jpg, no feed link to resolve against and no
icon-filter trigger, the collected media item's candidate list is
exactly [b.jpg, a.jpg, c.jpg]: width candidates descending, implicit
1x src last. -/
theorem img_srcset_candidate_order (c : Ctx)
    (hfl : c.feed_link = none) (hsty : c.style_small_icon "" = false) :
    ∃ m, img_branch c ⟨some "c.jpg",
        some [⟨"a.jpg", some 480, some SrcsetUnit.w⟩,
              ⟨"b.jpg", some 800, some SrcsetUnit.w⟩],
        "", [], "", none, none⟩ = ImgResult.media m ∧
      m.urls = ["b.jpg", "a.jpg", "c.jpg"] := by
  have hres : ∀ u, c.resolve u = u := fun u => by simp [Ctx.resolve, hfl]
  have hm : img_multi_src (some "c.jpg")
      (some [⟨"a.jpg", some 480, some SrcsetUnit.w⟩,
             ⟨"b.jpg", some 800, some SrcsetUnit.w⟩])
      = ["b.jpg", "a.jpg", "c.jpg"] := by decide
  have hmap : (["b.jpg", "a.jpg", "c.jpg"] : List String).map c.resolve
      = ["b.jpg", "a.jpg", "c.jpg"] := by
    simp [hres]
  refine ⟨if (["b.jpg", "a.jpg", "c.jpg"] : List String).any
      (fun u => anim_ext (c.url_path u)) then .animation ["b.jpg", "a.jpg", "c.jpg"]
      else .image ["b.jpg", "a.jpg", "c.jpg"], ?_, ?_⟩
  · simp only [img_branch, hm, hmap, hsty, le30]
    simp
    decide
  · cases h : (["b.jpg", "a.jpg", "c.jpg"] : List String).any
      (fun u => anim_ext (c.url_path u)) <;> rfl

/-- C7 witness: the candidate-order theorem at a concrete context with
no feed link and the empty style matching no small-icon pattern. -/
theorem img_srcset_candidate_order_witness :
    ∃ m, img_branch ⟨fun s => s, fun _ => [], fun _ => false, fun _ => true,
        fun _ u => u, none, fun _ => "", fun u => u, fun _ => "", fun n => n⟩
        ⟨some "c.jpg",
         some [⟨"a.jpg", some 480, some SrcsetUnit.w⟩,
               ⟨"b.jpg", some 800, some SrcsetUnit.w⟩],
         "", [], "", none, none⟩ = ImgResult.media m ∧
      m.urls = ["b.jpg", "a.jpg", "c.jpg"] :=
  img_srcset_candidate_order
    ⟨fun s => s, fun _ => [], fun _ => false, fun _ => true,
     fun _ u => u, none, fun _ => "", fun u => u, fun _ => "", fun n => n⟩
    rfl rfl

/-- Attribute lookup soup.get(key): first binding of the key. -/
def get_attr (attrs : List (String × String)) (k : String) : Option String :=
  (attrs.find? (fun p => p.1 == k)).map (·.2)

/-- Attribute lookup under Python truthiness: an absent attribute and
an empty string are both falsy. -/
def truthy_attr (attrs : List (String × String)) (k : String) : Option String :=
  match get_attr attrs k with
  | some s => if s = "" then none else some s
  | none => none

/-- int(s) guarded by s and s.isdigit()
(src/src/parsing/html_parser.py:119-120). -/
def parse_digits (s : String) : Option Nat :=
  if s ≠ "" ∧ s.data.all Char.isDigit then s.toNat? else none

mutual
/-- The DOM node tree handed to the parser by the external DOM parser
(BeautifulSoup): element tags with attributes and children, plain
NavigableString text, and other page elements (NavigableString
subclasses such as comments, dropped at
src/src/parsing/html_parser.py:66-69). -/
inductive DomNode where
  | text (s : String)
  | other
  | elem (tag : String) (attrs : List (String × String)) (children : DomForest)
inductive DomForest where
  | nil
  | cons (hd : DomNode) (tl : DomForest)
end

/-- Exact-type NavigableString test (type(child) is NavigableString,
src/src/parsing/html_parser.py:238). -/
def DomNode.isNavString : DomNode → Bool
  | .text _ => true
  | _ => false

mutual
/-- The src attributes of all descendant source elements in document
order, filtered for truthiness: soup.find_all(name='source') with the
t.get('src') guard (src/src/parsing/html_parser.py:169). -/
def source_srcs_node : DomNode → List String
  | .text _ => []
  | .other => []
  | .elem tag attrs children =>
    (if tag = "source" then
      (match truthy_attr attrs "src" with | some s => [s] | none => [])
     else []) ++ source_srcs_forest children
def source_srcs_forest : DomForest → List String
  | .nil => []
  | .cons hd tl => source_srcs_node hd ++ source_srcs_forest tl
end

/-- Collapse of the Iterator branch of _parse_item
(src/src/parsing/html_parser.py:57-64): no items is None, one item is
returned bare, several are wrapped in a Text group; collected media
pass through. -/
def collapse (r : List HtmlNode × List MediaItem) :
    Option HtmlNode × List MediaItem :=
  match r with
  | ([], ms) => (none, ms)
  | ([x], ms) => (some x, ms)
  | (xs, ms) => (some (.group xs), ms)

mutual
/-- Parser._parse_item (src/src/parsing/html_parser.py:55-245) over a
DOM node, with the media side channel made explicit (self.media.add
appends in encounter order) and the parent tag passed down
(soup.parent.name, used by the p/section branch).  o models the
network response of the best-effort web.get of the iframe branch
(line 224); the source then reads page.status, an attribute access on
the dict web.get returns (web.py:110-113), which always raises
AttributeError, so the response never influences the parse result and
the iframe placeholder title is always the netloc.  parse_forest is the
per-child loop shared by the Iterator branch (lines 57-64, inList
false) and the trailing generic/list branch (lines 235-245): a text
child item is dropped inside ol/ul containers. -/
def parse_item (c : Ctx) (o : String → Option String) (parent : String) :
    DomNode → Option HtmlNode × List MediaItem
  | .text s => (some (.text (c.emojify s)), [])
  | .other => (none, [])
  | .elem tag attrs children =>
    if tag = "p" ∨ tag = "section" then
      match collapse (parse_forest c o tag false children) with
      | (some tx, ms) =>
        (some (if parent ≠ "li" then .group [.br 1, tx, .br 1] else tx), ms)
      | (none, ms) => (none, ms)
    else if tag = "blockquote" then
      match collapse (parse_forest c o tag false children) with
      | (some q, ms) => (some (.group [.hr, c.strip_node q, .hr]), ms)
      | (none, ms) => (none, ms)
    else if tag = "pre" then
      match collapse (parse_forest c o tag false children) with
      | (t, ms) => (some (.pre t), ms)
    else if tag = "code" then
      match collapse (parse_forest c o tag false children) with
      | (t, ms) => (some (.code t), ms)
    else if tag = "br" then (some (.br 1), [])
    else if tag = "a" then
      match collapse (parse_forest c o tag false children) with
      | (none, m1) => (none, m1)
      | (some _, m1) =>
        match truthy_attr attrs "href" with
        | none => (none, m1)
        | some href =>
          let href2 := c.resolve href
          match collapse (parse_forest c o tag false children) with
          | (t2, m2) => (t2.map (fun n => HtmlNode.link n href2), m1 ++ m2)
    else if tag = "img" then
      match img_branch c
        { src := truthy_attr attrs "src"
          srcset := (truthy_attr attrs "srcset").map c.tokenize_srcset
          alt := (get_attr attrs "alt").getD ""
          classTokens :=
            match get_attr attrs "class" with
            | some s => s.splitOn " "
            | none => []
          style := (get_attr attrs "style").getD ""
          width := parse_digits ((get_attr attrs "width").getD "")
          height := parse_digits ((get_attr attrs "height").getD "") } with
      | .nothing => (none, [])
      | .text s => (some (.text s), [])
      | .media m => (none, [m])
    else if tag = "video" then
      let m0 := source_srcs_forest children ++
        (match truthy_attr attrs "src" with | some s => [s] | none => [])
      let resolved := m0.map c.resolve
      if resolved = [] then (none, [])
      else (none, [.video resolved (get_attr attrs "poster")])
    else if tag = "b" ∨ tag = "strong" then
      match collapse (parse_forest c o tag false children) with
      | (t, ms) => (t.map .bold, ms)
    else if tag = "i" ∨ tag = "em" then
      match collapse (parse_forest c o tag false children) with
      | (t, ms) => (t.map .italic, ms)
    else if tag = "u" ∨ tag = "ins" then
      match collapse (parse_forest c o tag false children) with
      | (t, ms) => (t.map .underline, ms)
    else if tag = "h1" then
      match collapse (parse_forest c o tag false children) with
      | (t, ms) =>
        (t.map (fun tx => HtmlNode.group [.br 2, .bold (.underline tx), .br 1]), ms)
    else if tag = "h2" then
      match collapse (parse_forest c o tag false children) with
      | (t, ms) => (t.map (fun tx => HtmlNode.group [.br 2, .bold tx, .br 1]), ms)
    else if tag = "hr" then (some .hr, [])
    else if py_startswith tag "h" ∧ tag.length = 2 then
      match collapse (parse_forest c o tag false children) with
      | (t, ms) => (t.map (fun tx => HtmlNode.group [.br 2, .underline tx, .br 1]), ms)
    else if tag = "li" then
      match collapse (parse_forest c o tag false children) with
      | (t, ms) => (t.map .listItem, ms)
    else if tag = "iframe" then
      match collapse (parse_forest c o tag false children) with
      | (t, ms) =>
        match truthy_attr attrs "src" with
        | none => (none, ms)
        | some src0 =>
          let src1 := c.resolve src0
          let title :=
            match t with
            | some tx => c.node_str tx
            | none =>
              -- src/src/parsing/html_parser.py:224-232: page = await
              -- web.get(...) yields the plain dict of web.py:110-113, and
              -- page.status is an attribute access on that dict, which raises
              -- AttributeError before any response data is read; the bare
              -- except swallows it and the finally sets
              -- text = urlparse(src).netloc.  The oracle o models the network
              -- response; its value cannot reach the title because that data
              -- flow is dead.
              let _page := o src1
              c.netloc src1
          (some (.group [.br 2, .link (.text ("iframe (" ++ title ++ ")")) src1, .br 2]),
           ms)
    else
      match parse_forest c o tag (tag = "ol" ∨ tag = "ul") children with
      | (items, ms) =>
        if tag = "ol" then (some (.orderedList ([.br 1] ++ items ++ [.br 1])), ms)
        else if tag = "ul" then (some (.unorderedList ([.br 1] ++ items ++ [.br 1])), ms)
        else
          match items with
          | [x] => (some x, ms)
          | xs => (some (.group xs), ms)

def parse_forest (c : Ctx) (o : String → Option String) (parent : String)
    (inList : Bool) : DomForest → List HtmlNode × List MediaItem
  | .nil => ([], [])
  | .cons hd tl =>
    let r1 := parse_item c o parent hd
    let r2 := parse_forest c o parent inList tl
    (match r1.1 with
     | some n => if inList ∧ hd.isNavString then r2.1 else n :: r2.1
     | none => r2.1,
     r1.2 ++ r2.2)
end

/-- Parser.parse (src/src/parsing/html_parser.py:46-48): _parse_item
applied to the whole soup document, a Tag named [document] whose
children are the top-level DOM nodes. -/
def Parser.parse (c : Ctx) (o : String → Option String) (doc : DomForest) :
    Option HtmlNode × List MediaItem :=
  parse_item c o "" (.elem "[document]" [] doc)

mutual
theorem parse_item_oracle_indep (c : Ctx) (o1 o2 : String → Option String)
    (parent : String) (n : DomNode) :
    parse_item c o1 parent n = parse_item c o2 parent n := by
  cases n with
  | text s => rfl
  | other => rfl
  | elem tag attrs children =>
    have hf : ∀ inL, parse_forest c o1 tag inL children
        = parse_forest c o2 tag inL children :=
      fun inL => parse_forest_oracle_indep c o1 o2 tag inL children
    simp only [parse_item, hf]

theorem parse_forest_oracle_indep (c : Ctx) (o1 o2 : String → Option String)
    (parent : String) (inL : Bool) (f : DomForest) :
    parse_forest c o1 parent inL f = parse_forest c o2 parent inL f := by
  cases f with
  | nil => rfl
  | cons hd tl =>
    simp only [parse_forest,
      parse_item_oracle_indep c o1 o2 parent hd,
      parse_forest_oracle_indep c o1 o2 parent inL tl]
end

/-- C9: parsing is deterministic and a pure function of the input DOM
tree with its fixed feed base link: the only network-touching branch,
the iframe title fetch, cannot influence the result because its data
flow is dead (page.status is an attribute access on the dict web.get
returns and always raises AttributeError, html_parser.py:225 with
web.py:110-113), so two parser runs over the same DOM tree yield
structurally equal content trees and equal, order-preserving media
lists whatever the network answered in each run. -/
theorem parse_pure_function_of_dom (c : Ctx)
    (o1 o2 : String → Option String) (doc : DomForest) :
    Parser.parse c o1 doc = Parser.parse c o2 doc :=
  parse_item_oracle_indep c o1 o2 "" (.elem "[document]" [] doc)
